import Mathlib

/-!
Shallow embedding of the availability-slot engine of the scheduling
application (source files `src/utils/dateHelpers.ts`, `src/actions/slots.ts`
and the booking server action), together with theorems settling the claims
about it.

Modelling conventions:
* Instants are plain integers counting minutes (JavaScript `Date` values at the
  minute granularity at which every engine operation works); a calendar day
  is the integer `Int.ediv t 1440`, so `date-fns` day arithmetic becomes
  integer arithmetic.  A "date" parameter that the source uses only for its
  calendar day is passed as its day index.
* `getDay` (0 = Sunday, ..., 6 = Saturday) becomes `Int.emod day 7`; the
  choice of which absolute day index is a Sunday is irrelevant to every
  claim and is fixed by this convention.
* Fallible external-store reads are `Except Unit` values supplied as
  arguments; fallible store writes are supplied as Boolean failure flags.
-/

namespace EnzoCalendar

/-- `date-fns` `isBefore`: strict order. -/
def isBefore (a b : Int) : Bool := decide (a < b)

/-- `date-fns` `isAfter`: strict order. -/
def isAfter (a b : Int) : Bool := decide (b < a)

/-- `date-fns` `addMinutes`. -/
def addMinutes (t : Int) (n : Int) : Int := t + n

/-- A wall-clock time of day, as parsed from an `HH:MM` string by
`config.startTime.split(':').map(Number)` in `generateTimeSlots`. -/
structure WallTime where
  hour : Int
  minute : Int
deriving DecidableEq, Repr

/-- `setMinutes(setHours(date, h), m)`: the instant on `date`'s calendar day
(`date` given as a day index) at wall-clock time `t`. -/
def setTime (date : Int) (t : WallTime) : Int :=
  date * 1440 + t.hour * 60 + t.minute

/-- `TimeSlotConfig` from `dateHelpers.ts` (the optional `bufferTime`,
defaulted to 0 by `config.bufferTime || 0`, is made explicit). -/
structure TimeSlotConfig where
  startTime : WallTime
  endTime : WallTime
  slotDuration : Int
  bufferTime : Int
deriving DecidableEq, Repr

/-- The `while (isBefore(currentSlot, dayEnd))` loop of `generateTimeSlots`,
with structural recursion on a fuel counter (the loop body has no other
structurally decreasing argument).  One fuel unit is one loop iteration:
the loop test `isBefore(currentSlot, dayEnd)`, the conditional emission of
`{start: cursor, end: cursor + slotDuration}` when the slot end does not
pass `dayEnd`, and the cursor advance by `slotDuration + bufferTime`.
`generateTimeSlots` supplies enough fuel for every terminating run of the
source loop; when `slotDuration + bufferTime ≤ 0` and the window is open the
source loop never terminates, and the embedding returns the prefix of
emissions the fuel allows. -/
def generateTimeSlotsGo (dayEnd dur buf : Int) :
    Nat → Int → List (Int × Int)
  | 0, _ => []
  | fuel + 1, cur =>
    if isBefore cur dayEnd then
      if isBefore (cur + dur) dayEnd || decide (cur + dur = dayEnd) then
        (cur, cur + dur) :: generateTimeSlotsGo dayEnd dur buf fuel (cur + dur + buf)
      else
        generateTimeSlotsGo dayEnd dur buf fuel (cur + dur + buf)
    else []

/-- `generateTimeSlots(date, config)` from `dateHelpers.ts`: cursor starts at
the day combined with `config.startTime`, each emitted slot is
`{start: cursor, end: cursor + slotDuration}` provided the end does not pass
the day combined with `config.endTime`, and the cursor advances by
`slotDuration + bufferTime`.  The fuel `(dayEnd - start).toNat + 1` bounds
the iteration count of every terminating run: whenever
`0 < slotDuration + bufferTime` the cursor strictly increases each
iteration, so at most `(dayEnd - start).toNat` iterations satisfy the loop
test. -/
def generateTimeSlots (date : Int) (config : TimeSlotConfig) :
    List (Int × Int) :=
  generateTimeSlotsGo (setTime date config.endTime) config.slotDuration
    config.bufferTime
    ((setTime date config.endTime - setTime date config.startTime).toNat + 1)
    (setTime date config.startTime)

/-- `doTimesOverlap` from `dateHelpers.ts`, verbatim: two (redundant)
disjuncts of strict comparisons. -/
def doTimesOverlap (start1 end1 start2 end2 : Int) : Bool :=
  (isBefore start1 end2 && isAfter end1 start2) ||
    (isBefore start2 end1 && isAfter end2 start1)

/-- `isSlotAvailable` from `dateHelpers.ts`: no booked interval overlaps. -/
def isSlotAvailable (slotStart slotEnd : Int)
    (bookedSlots : List (Int × Int)) : Bool :=
  !(bookedSlots.any fun booked =>
    doTimesOverlap slotStart slotEnd booked.1 booked.2)

/-- `getDayOfWeek` (`date-fns` `getDay`): weekday index of a day. -/
def getDayOfWeek (date : Int) : Int := Int.emod date 7

/-- `getDateRange(startDate, days)`: `days` consecutive days from
`startDate` inclusive. -/
def getDateRange (startDate : Int) (days : Nat) : List Int :=
  (List.range days).map fun i => startDate + Int.ofNat i

/-- Calendar day of an instant (`toDateString()` equality becomes equality
of this value). -/
def dayIndex (t : Int) : Int := Int.ediv t 1440

/-- A row of `availability_rules` as used by `getAvailableSlots` (the columns
it reads). -/
structure AvailabilityRule where
  day_of_week : Int
  start_time : WallTime
  end_time : WallTime
  is_active : Bool
deriving DecidableEq, Repr

/-- `DEFAULT_AVAILABILITY_RULES` from `slots.ts`: Monday to Friday,
9 AM to 6 PM. -/
def DEFAULT_AVAILABILITY_RULES : List AvailabilityRule :=
  [⟨1, ⟨9, 0⟩, ⟨18, 0⟩, true⟩,
   ⟨2, ⟨9, 0⟩, ⟨18, 0⟩, true⟩,
   ⟨3, ⟨9, 0⟩, ⟨18, 0⟩, true⟩,
   ⟨4, ⟨9, 0⟩, ⟨18, 0⟩, true⟩,
   ⟨5, ⟨9, 0⟩, ⟨18, 0⟩, true⟩]

/-- The `TimeSlot` returned by the engine (`end` is a reserved word in Lean,
so the source's `end` field is named `stop`). -/
structure TimeSlot where
  start : Int
  stop : Int
  available : Bool
deriving DecidableEq, Repr

/-- `getAvailableSlots` from `slots.ts` as a pure function.  The two store
reads become arguments: `eventsRes` is the result of the `events` query
(already restricted by the query itself to `is_public = true` rows in the
range, returned as `(start_time, end_time)` pairs) and `rulesRes` the result
of the `availability_rules` query (already restricted to `is_active = true`
rows).  A query error (and likewise the surrounding `catch`) is `.error ()`.
Per the source: an events error returns `[]`; an empty or failed rules read
falls back to `DEFAULT_AVAILABILITY_RULES`; each day of the range uses the
first rule whose `day_of_week` matches and is skipped when none does; every
candidate slot is emitted with its `available` flag. -/
def getAvailableSlots (startDate : Int) (days : Nat)
    (slotDuration bufferTime : Int)
    (eventsRes : Except Unit (List (Int × Int)))
    (rulesRes : Except Unit (List AvailabilityRule)) : List TimeSlot :=
  match eventsRes with
  | .error _ => []
  | .ok events =>
    let rules : List AvailabilityRule :=
      match rulesRes with
      | .ok rulesData =>
        if rulesData.length > 0 then rulesData else DEFAULT_AVAILABILITY_RULES
      | .error _ => DEFAULT_AVAILABILITY_RULES
    (getDateRange startDate days).flatMap fun date =>
      match rules.find? (fun r => decide (r.day_of_week = getDayOfWeek date)) with
      | none => []
      | some dayRule =>
        let daySlots := generateTimeSlots date
          ⟨dayRule.start_time, dayRule.end_time, slotDuration, bufferTime⟩
        let bookedSlots := (events.filter fun e => decide (dayIndex e.1 = date))
        daySlots.map fun slot =>
          ⟨slot.1, slot.2, isSlotAvailable slot.1 slot.2 bookedSlots⟩

/-! ### Helper lemmas about the slot-generation loop -/

/-- Once the cursor has reached `dayEnd`, the loop emits nothing, whatever
fuel remains. -/
theorem generateTimeSlotsGo_eq_nil (dayEnd dur buf : Int) (fuel : Nat)
    (cur : Int) (h : dayEnd ≤ cur) :
    generateTimeSlotsGo dayEnd dur buf fuel cur = [] := by
  cases fuel with
  | zero => rfl
  | succ n =>
    have hb : isBefore cur dayEnd = false := by
      simp only [isBefore, decide_eq_false_iff_not]
      omega
    simp [generateTimeSlotsGo, hb]

/-- Every slot the loop emits ends exactly `dur` after it starts and no
later than `dayEnd`. -/
theorem generateTimeSlotsGo_mem (dayEnd dur buf : Int) (fuel : Nat) :
    ∀ (cur : Int), ∀ s ∈ generateTimeSlotsGo dayEnd dur buf fuel cur,
      s.2 = s.1 + dur ∧ s.2 ≤ dayEnd := by
  induction fuel with
  | zero => intro cur s hs; simp [generateTimeSlotsGo] at hs
  | succ n ih =>
    intro cur s hs
    rw [generateTimeSlotsGo] at hs
    by_cases h1 : isBefore cur dayEnd = true
    · rw [if_pos h1] at hs
      by_cases h2 : (isBefore (cur + dur) dayEnd || decide (cur + dur = dayEnd)) = true
      · rw [if_pos h2] at hs
        rcases List.mem_cons.mp hs with h3 | h3
        · subst h3
          refine ⟨rfl, ?_⟩
          simp only [isBefore, Bool.or_eq_true, decide_eq_true_eq] at h2
          show cur + dur ≤ dayEnd
          omega
        · exact ih _ s h3
      · rw [if_neg h2] at hs
        exact ih _ s hs
    · rw [if_neg h1] at hs
      simp at hs

/-- The first slot the loop emits (if any) starts at the current cursor
position, provided the buffer is non-negative. -/
theorem generateTimeSlotsGo_head (dayEnd dur buf : Int) (hbuf : 0 ≤ buf)
    (fuel : Nat) (cur : Int) (p : Int × Int)
    (hp : (generateTimeSlotsGo dayEnd dur buf fuel cur).head? = some p) :
    p.1 = cur := by
  cases fuel with
  | zero => simp [generateTimeSlotsGo] at hp
  | succ n =>
    rw [generateTimeSlotsGo] at hp
    by_cases h1 : isBefore cur dayEnd = true
    · rw [if_pos h1] at hp
      by_cases h2 : (isBefore (cur + dur) dayEnd || decide (cur + dur = dayEnd)) = true
      · rw [if_pos h2] at hp
        simp only [List.head?_cons, Option.some.injEq] at hp
        rw [← hp]
      · rw [if_neg h2] at hp
        simp only [isBefore, Bool.or_eq_true, decide_eq_true_eq, not_or] at h2
        rw [generateTimeSlotsGo_eq_nil dayEnd dur buf n (cur + dur + buf)
          (by omega)] at hp
        simp at hp
    · rw [if_neg h1] at hp
      simp at hp

/-- Consecutive emitted slots are chained: each starts `buf` minutes after
the previous one ends. -/
theorem generateTimeSlotsGo_chain (dayEnd dur buf : Int) (hbuf : 0 ≤ buf)
    (fuel : Nat) :
    ∀ (cur : Int), List.Chain' (fun a b => b.1 = a.2 + buf)
      (generateTimeSlotsGo dayEnd dur buf fuel cur) := by
  induction fuel with
  | zero => intro cur; simp [generateTimeSlotsGo]
  | succ n ih =>
    intro cur
    rw [generateTimeSlotsGo]
    by_cases h1 : isBefore cur dayEnd = true
    · rw [if_pos h1]
      by_cases h2 : (isBefore (cur + dur) dayEnd || decide (cur + dur = dayEnd)) = true
      · rw [if_pos h2]
        refine List.chain'_cons'.mpr ⟨?_, ih (cur + dur + buf)⟩
        intro y hy
        have := generateTimeSlotsGo_head dayEnd dur buf hbuf n (cur + dur + buf) y
          (by simpa using hy)
        rw [this]
      · rw [if_neg h2]
        exact ih (cur + dur + buf)
    · rw [if_neg h1]
      simp

/-! ### Claim C1 -/

/-- C1: for a candidate slot `S` with `S.start < S.end` and booked intervals
`B`, `isSlotAvailable S.start S.end B` returns `false` iff some `b ∈ B` has
`S.start < b.end` and `b.start < S.end`; in particular it returns `true`
when every `b` touches only at an endpoint (`S.end = b.start` or
`b.end = S.start`). -/
theorem isSlotAvailable_false_iff_overlap (Sstart Send : Int)
    (B : List (Int × Int)) (hS : Sstart < Send) :
    (isSlotAvailable Sstart Send B = false ↔
      ∃ b ∈ B, Sstart < b.2 ∧ b.1 < Send) ∧
    ((∀ b ∈ B, Send = b.1 ∨ b.2 = Sstart) →
      isSlotAvailable Sstart Send B = true) := by
  have hiff : isSlotAvailable Sstart Send B = false ↔
      ∃ b ∈ B, Sstart < b.2 ∧ b.1 < Send := by
    simp only [isSlotAvailable, Bool.not_eq_false', List.any_eq_true,
      doTimesOverlap, isBefore, isAfter, Bool.or_eq_true, Bool.and_eq_true,
      decide_eq_true_eq]
    constructor
    · rintro ⟨b, hb, h | h⟩
      · exact ⟨b, hb, h.1, h.2⟩
      · exact ⟨b, hb, h.2, h.1⟩
    · rintro ⟨b, hb, h1, h2⟩
      exact ⟨b, hb, Or.inl ⟨h1, h2⟩⟩
  refine ⟨hiff, fun htouch => ?_⟩
  by_contra hne
  have hfalse : isSlotAvailable Sstart Send B = false := by
    cases h : isSlotAvailable Sstart Send B
    · rfl
    · exact absurd h hne
  obtain ⟨b, hb, h1, h2⟩ := hiff.mp hfalse
  rcases htouch b hb with h3 | h3 <;> omega

/-- Concrete instance of C1: slot `[0, 30)` against the single booked
interval `[30, 60)` (back-to-back, so available). -/
theorem isSlotAvailable_false_iff_overlap_witness :
    (0 : Int) < 30 ∧
    ((isSlotAvailable 0 30 [((30 : Int), (60 : Int))] = false ↔
      ∃ b ∈ [((30 : Int), (60 : Int))], (0 : Int) < b.2 ∧ b.1 < 30) ∧
    ((∀ b ∈ [((30 : Int), (60 : Int))], (30 : Int) = b.1 ∨ b.2 = 0) →
      isSlotAvailable 0 30 [((30 : Int), (60 : Int))] = true)) :=
  ⟨by decide, isSlotAvailable_false_iff_overlap 0 30 [(30, 60)] (by decide)⟩

/-! ### Claim C2 -/

/-- C2: for every day and well-formed rule with positive slot duration and
non-negative buffer, every slot emitted by `generateTimeSlots` lasts exactly
`slotDuration` minutes and ends no later than the instant formed from the
day and the rule's end time. -/
theorem generateTimeSlots_duration_and_end_bound (date : Int)
    (config : TimeSlotConfig)
    (hwf : config.startTime.hour * 60 + config.startTime.minute <
      config.endTime.hour * 60 + config.endTime.minute)
    (hdur : 0 < config.slotDuration) (hbuf : 0 ≤ config.bufferTime) :
    ∀ s ∈ generateTimeSlots date config,
      s.2 - s.1 = config.slotDuration ∧ s.2 ≤ setTime date config.endTime := by
  intro s hs
  have h := generateTimeSlotsGo_mem (setTime date config.endTime)
    config.slotDuration config.bufferTime _ _ s hs
  exact ⟨by omega, h.2⟩

/-- Concrete instance of C2: rule 09:00–10:00, duration 30, buffer 0 on
day 0; the emitted slot `(540, 570)` lasts 30 minutes and ends by 600. -/
theorem generateTimeSlots_duration_and_end_bound_witness :
    ((9 : Int) * 60 + 0 < 10 * 60 + 0 ∧ (0 : Int) < 30 ∧ (0 : Int) ≤ 0) ∧
    ((540 : Int), (570 : Int)) ∈ generateTimeSlots 0 ⟨⟨9, 0⟩, ⟨10, 0⟩, 30, 0⟩ ∧
    ((570 : Int) - 540 = 30 ∧ (570 : Int) ≤ setTime 0 ⟨10, 0⟩) :=
  ⟨by decide, by decide,
    generateTimeSlots_duration_and_end_bound 0 ⟨⟨9, 0⟩, ⟨10, 0⟩, 30, 0⟩
      (by decide) (by decide) (by decide) (540, 570) (by decide)⟩

/-! ### Claim C3 -/

/-- C3: in every slot sequence produced by `generateTimeSlots` (positive
duration, non-negative buffer), each slot after the first starts exactly
`bufferTime` minutes after the previous slot ends: the emitted slots are the
consecutive candidates of the cursor loop. -/
theorem generateTimeSlots_consecutive (date : Int) (config : TimeSlotConfig)
    (hdur : 0 < config.slotDuration) (hbuf : 0 ≤ config.bufferTime) :
    ∀ (i : Nat) (h1 : i + 1 < (generateTimeSlots date config).length),
      ((generateTimeSlots date config).get ⟨i + 1, h1⟩).1 =
        ((generateTimeSlots date config).get
          ⟨i, Nat.lt_of_succ_lt h1⟩).2 + config.bufferTime := by
  intro i h1
  have hchain := generateTimeSlotsGo_chain (setTime date config.endTime)
    config.slotDuration config.bufferTime hbuf
    ((setTime date config.endTime - setTime date config.startTime).toNat + 1)
    (setTime date config.startTime)
  have h2 : i < (generateTimeSlots date config).length - 1 := by omega
  exact List.chain'_iff_get.mp hchain i h2

/-- Concrete instance of C3: rule 09:00–10:00, duration 30, buffer 0 emits
`[(540, 570), (570, 600)]`; the second slot starts where the first ends. -/
theorem generateTimeSlots_consecutive_witness :
    ((0 : Int) < 30 ∧ (0 : Int) ≤ 0) ∧
    (0 + 1 < (generateTimeSlots 0 ⟨⟨9, 0⟩, ⟨10, 0⟩, 30, 0⟩).length ∧
     ((generateTimeSlots 0 ⟨⟨9, 0⟩, ⟨10, 0⟩, 30, 0⟩).get
        ⟨1, by decide⟩).1 =
      ((generateTimeSlots 0 ⟨⟨9, 0⟩, ⟨10, 0⟩, 30, 0⟩).get
        ⟨0, by decide⟩).2 + 0) :=
  ⟨by decide, by decide,
    generateTimeSlots_consecutive 0 ⟨⟨9, 0⟩, ⟨10, 0⟩, 30, 0⟩ (by decide)
      (by decide) 0 (by decide)⟩

/-! ### Claim C6 -/

/-- C6: when the read of the booked-interval set from the event store fails
(query error or thrown exception, both modelled by `.error ()`),
`getAvailableSlots` returns the empty list instead of propagating the
error. -/
theorem getAvailableSlots_events_error (startDate : Int) (days : Nat)
    (slotDuration bufferTime : Int)
    (rulesRes : Except Unit (List AvailabilityRule)) :
    getAvailableSlots startDate days slotDuration bufferTime
      (.error ()) rulesRes = [] := rfl

/-! ### Claim C5 -/

/-- The loop's emission count satisfies
`count * (dur + buf) ≤ dayEnd + buf - cur` unless it emits nothing. -/
theorem generateTimeSlotsGo_length (dayEnd dur buf : Int) (hdur : 0 < dur)
    (hbuf : 0 ≤ buf) (fuel : Nat) :
    ∀ cur : Int,
      ((generateTimeSlotsGo dayEnd dur buf fuel cur).length : Int) *
          (dur + buf) ≤ dayEnd + buf - cur ∨
        generateTimeSlotsGo dayEnd dur buf fuel cur = [] := by
  induction fuel with
  | zero => intro cur; right; rfl
  | succ n ih =>
    intro cur
    rw [generateTimeSlotsGo]
    by_cases h1 : isBefore cur dayEnd = true
    · rw [if_pos h1]
      by_cases h2 : (isBefore (cur + dur) dayEnd || decide (cur + dur = dayEnd)) = true
      · rw [if_pos h2]
        left
        simp only [isBefore, Bool.or_eq_true, decide_eq_true_eq] at h2
        simp only [List.length_cons]
        push_cast
        have hexp :
            ((generateTimeSlotsGo dayEnd dur buf n (cur + dur + buf)).length
                + (1 : Int)) * (dur + buf) =
              ((generateTimeSlotsGo dayEnd dur buf n
                (cur + dur + buf)).length : Int) * (dur + buf) +
                (dur + buf) := by ring
        rw [hexp]
        rcases ih (cur + dur + buf) with h3 | h3
        · linarith
        · rw [h3]
          simp only [List.length_nil, Int.ofNat_zero, zero_mul, zero_add]
          omega
      · rw [if_neg h2]
        right
        simp only [isBefore, Bool.or_eq_true, decide_eq_true_eq, not_or] at h2
        exact generateTimeSlotsGo_eq_nil _ _ _ _ _ (by omega)
    · rw [if_neg h1]
      right; rfl

/-- Per-day bound: with window `w` between the rule's start and end times,
a positive duration and a non-negative buffer, at most
`⌊(w + buffer)/(duration + buffer)⌋` slots are generated. -/
theorem generateTimeSlots_length_le (date : Int) (config : TimeSlotConfig)
    (hdur : 0 < config.slotDuration) (hbuf : 0 ≤ config.bufferTime)
    (w : Int)
    (hw : config.endTime.hour * 60 + config.endTime.minute -
      (config.startTime.hour * 60 + config.startTime.minute) = w)
    (hw0 : 0 ≤ w) :
    (generateTimeSlots date config).length ≤
      Int.toNat (Int.ediv (w + config.bufferTime)
        (config.slotDuration + config.bufferTime)) := by
  have hq0 : 0 ≤ Int.ediv (w + config.bufferTime)
      (config.slotDuration + config.bufferTime) :=
    Int.ediv_nonneg (by omega) (by omega)
  rcases generateTimeSlotsGo_length (setTime date config.endTime)
      config.slotDuration config.bufferTime hdur hbuf
      ((setTime date config.endTime - setTime date config.startTime).toNat + 1)
      (setTime date config.startTime) with h | h
  · have hwin : setTime date config.endTime + config.bufferTime -
        setTime date config.startTime = w + config.bufferTime := by
      simp only [setTime]
      omega
    have h2 : ((generateTimeSlots date config).length : Int) *
        (config.slotDuration + config.bufferTime) ≤
          w + config.bufferTime := by
      have hx : ((generateTimeSlots date config).length : Int) =
          ((generateTimeSlotsGo (setTime date config.endTime)
            config.slotDuration config.bufferTime
            ((setTime date config.endTime -
              setTime date config.startTime).toNat + 1)
            (setTime date config.startTime)).length : Int) := rfl
      rw [hx]
      linarith
    have h3 : ((generateTimeSlots date config).length : Int) ≤
        Int.ediv (w + config.bufferTime)
          (config.slotDuration + config.bufferTime) :=
      (Int.le_ediv_iff_mul_le (by omega)).mpr h2
    omega
  · have hx : generateTimeSlots date config = [] := h
    rw [hx]
    exact Nat.zero_le _

/-- Concatenating per-day slot lists, each of length at most `B`, yields at
most `days * B` slots. -/
theorem length_flatMap_le_of_le {α β : Type} (l : List α) (f : α → List β)
    (B : Nat) (h : ∀ x ∈ l, (f x).length ≤ B) :
    (l.flatMap f).length ≤ l.length * B := by
  induction l with
  | nil => simp
  | cons a l ih =>
    simp only [List.flatMap_cons, List.length_append, List.length_cons]
    have h1 := h a (List.mem_cons_self a l)
    have h2 := ih fun x hx => h x (List.mem_cons_of_mem a hx)
    calc (f a).length + (l.flatMap f).length ≤ B + l.length * B :=
        Nat.add_le_add h1 h2
      _ = (l.length + 1) * B := by ring

/-- C5 fails as stated: on day 1 (weekday 1) with the persisted rule
09:00–09:30 (window 30), duration 30 and buffer 10, one slot `(540, 570)`
relative to the day is returned, yet the claimed bound is
`days × ⌊window/(duration+buffer)⌋ = 1 × ⌊30/40⌋ = 0`. -/
theorem getAvailableSlots_length_bound_counterexample :
    ¬ ((getAvailableSlots 1 1 30 10 (.ok [])
        (.ok [⟨1, ⟨9, 0⟩, ⟨9, 30⟩, true⟩])).length ≤
      1 * Int.toNat (Int.ediv 30 (30 + 10))) := by decide

/-- C5 amended: for `days` days, uniform per-day window `w`, duration
`duration > 0` and buffer `buffer ≥ 0`, the result length is at most
`days × ⌊(w + buffer)/(duration + buffer)⌋` (the numerator is `w + buffer`,
not `w`: the final slot needs no trailing buffer inside the window). -/
theorem getAvailableSlots_length_bound (startDate : Int) (days : Nat)
    (slotDuration bufferTime : Int) (events : List (Int × Int))
    (rulesData : List AvailabilityRule) (w : Int)
    (hdur : 0 < slotDuration) (hbuf : 0 ≤ bufferTime) (hw0 : 0 ≤ w)
    (hne : rulesData ≠ [])
    (hwin : ∀ r ∈ rulesData,
      r.end_time.hour * 60 + r.end_time.minute -
        (r.start_time.hour * 60 + r.start_time.minute) = w) :
    (getAvailableSlots startDate days slotDuration bufferTime
        (.ok events) (.ok rulesData)).length ≤
      days * Int.toNat (Int.ediv (w + bufferTime)
        (slotDuration + bufferTime)) := by
  have hlen : rulesData.length > 0 := List.length_pos.mpr hne
  simp only [getAvailableSlots, if_pos hlen]
  have hdays : (getDateRange startDate days).length = days := by
    unfold getDateRange
    rw [List.length_map, List.length_range]
  refine le_trans (length_flatMap_le_of_le _ _
    (Int.toNat (Int.ediv (w + bufferTime) (slotDuration + bufferTime))) ?_)
    (le_of_eq (by rw [hdays]))
  intro date _
  cases hfind : rulesData.find?
      (fun r => decide (r.day_of_week = getDayOfWeek date)) with
  | none => simp [hfind]
  | some dayRule =>
    simp only [hfind, List.length_map]
    have hmem : dayRule ∈ rulesData := List.mem_of_find?_eq_some hfind
    exact generateTimeSlots_length_le date
      ⟨dayRule.start_time, dayRule.end_time, slotDuration, bufferTime⟩
      hdur hbuf w (hwin dayRule hmem) hw0

/-- Concrete instance of the amended C5 bound: one day, window 30, duration
30, buffer 10; one slot is produced and `⌊(30+10)/(30+10)⌋ = 1`. -/
theorem getAvailableSlots_length_bound_witness :
    ((0 : Int) < 30 ∧ (0 : Int) ≤ 10 ∧ (0 : Int) ≤ 30 ∧
      ([⟨1, ⟨9, 0⟩, ⟨9, 30⟩, true⟩] : List AvailabilityRule) ≠ [] ∧
      (∀ r ∈ ([⟨1, ⟨9, 0⟩, ⟨9, 30⟩, true⟩] : List AvailabilityRule),
        r.end_time.hour * 60 + r.end_time.minute -
          (r.start_time.hour * 60 + r.start_time.minute) = 30)) ∧
    (getAvailableSlots 1 1 30 10 (.ok [])
        (.ok [⟨1, ⟨9, 0⟩, ⟨9, 30⟩, true⟩])).length ≤
      1 * Int.toNat (Int.ediv (30 + 10) (30 + 10)) :=
  ⟨⟨by decide, by decide, by decide, by decide, by decide⟩,
    getAvailableSlots_length_bound 1 1 30 10 []
      [⟨1, ⟨9, 0⟩, ⟨9, 30⟩, true⟩] 30 (by decide) (by decide) (by decide)
      (by decide) (by decide)⟩

/-! ### Booking acceptance: `createBooking` from the bookings server action -/

/-- A row of the `events` table as written and read by `createBooking`. -/
structure EventRecord where
  id : Nat
  start_time : Int
  end_time : Int
  is_public : Bool
  event_type : String
deriving DecidableEq, Repr

/-- A row of the `bookings` table as written by `createBooking` (the fields
beyond the linked event id do not matter to any claim and are omitted). -/
structure BookingRecord where
  id : Nat
  event_id : Nat
deriving DecidableEq, Repr

/-- The backing store visible to `createBooking`: the two tables, plus the
id the store will assign to the next inserted row (id generation belongs to
the store, and sequences are not rolled back by a delete). -/
structure Store where
  events : List EventRecord
  bookings : List BookingRecord
  nextId : Nat
deriving DecidableEq, Repr

/-- `ApiResponse<{id: string}>` of the booking action: `{success: true,
data: {id}}` or `{success: false, error}`. -/
inductive BookingResult where
  | success (id : Nat)
  | failure (error : String)
deriving DecidableEq, Repr

/-- `createBooking` from the bookings server action, as a pure function of
the store state.  `now` is the clock value read by `new Date()` in the
past-slot check; `validationOk` abstracts the outcome of
`createBookingSchema.safeParse(input)` (the zod structural validation of
name/email/phone/notes — on failure the source returns the first issue's
message, modelled by the fixed string "ValidationError"); `checkFails`,
`eventInsertFails` and `bookingInsertFails` are the store's failure
behaviours on the three store calls, in program order.  The steps mirror
the source: validation; reject if `slotStart < new Date()`; query for an
event with exactly matching `(start_time, end_time)` and reject if the
query fails or finds one; insert the event row; insert the booking row,
and on failure delete the just-inserted event row (`delete().eq('id', ...)`)
before rejecting. -/
def createBooking (now slot_start slot_end : Int) (validationOk : Bool)
    (checkFails eventInsertFails bookingInsertFails : Bool)
    (s : Store) : BookingResult × Store :=
  if validationOk = false then
    (.failure "ValidationError", s)
  else if decide (slot_start < now) then
    (.failure "No se puede reservar un horario pasado", s)
  else if checkFails then
    (.failure "Error al verificar disponibilidad", s)
  else match s.events.find? (fun e =>
      decide (e.start_time = slot_start) && decide (e.end_time = slot_end)) with
  | some _ => (.failure "Este horario ya fue reservado", s)
  | none =>
    if eventInsertFails then
      (.failure "Error al crear el evento", s)
    else
      let eventData : EventRecord :=
        ⟨s.nextId, slot_start, slot_end, true, "booking"⟩
      let s1 : Store := ⟨s.events ++ [eventData], s.bookings, s.nextId + 1⟩
      if bookingInsertFails then
        (.failure "Error al crear la reserva",
          ⟨s1.events.filter fun e => !decide (e.id = eventData.id),
            s1.bookings, s1.nextId⟩)
      else
        let bookingData : BookingRecord := ⟨s1.nextId, eventData.id⟩
        (.success bookingData.id,
          ⟨s1.events, s1.bookings ++ [bookingData], s1.nextId + 1⟩)

/-! ### Claim C7 -/

/-- C7 fails as stated at the boundary: with acceptance time 100 and a
structurally valid input whose candidate start is exactly 100 — hence not
strictly in the future — the call is not rejected: it succeeds and writes
an event and a booking record. -/
theorem createBooking_not_future_counterexample :
    (createBooking 100 100 130 true false false false ⟨[], [], 7⟩).1 =
        .success 8 ∧
      (createBooking 100 100 130 true false false false
        ⟨[], [], 7⟩).2.events ≠ [] := by decide

/-- C7 amended: the past-slot rejection fires exactly on candidate starts
strictly before the acceptance time (a start equal to the acceptance time
is let through); on rejection the store is unchanged. -/
theorem createBooking_past_slot (now slot_start slot_end : Int)
    (checkFails eventInsertFails bookingInsertFails : Bool) (s : Store)
    (hpast : slot_start < now) :
    createBooking now slot_start slot_end true checkFails eventInsertFails
        bookingInsertFails s =
      (.failure "No se puede reservar un horario pasado", s) := by
  simp [createBooking, hpast]

/-- Concrete instance of the amended C7: start 50 against acceptance time
100 is rejected as past and the store stays empty. -/
theorem createBooking_past_slot_witness :
    (50 : Int) < 100 ∧
    createBooking 100 50 80 true false false false ⟨[], [], 0⟩ =
      (.failure "No se puede reservar un horario pasado", ⟨[], [], 0⟩) :=
  ⟨by decide, createBooking_past_slot 100 50 80 false false false ⟨[], [], 0⟩
    (by decide)⟩

/-! ### Claim C8 -/

/-- C8: when the event insert succeeds but the booking insert fails, the
just-created event row is deleted again and the call rejects: both tables
of the final store equal the initial ones, so no committed state holds a
booking-type event without a linked booking record.  (`hfresh` says the
store assigns a genuinely fresh id to the inserted event, as a database
does.) -/
theorem createBooking_rollback (now slot_start slot_end : Int) (s : Store)
    (hpast : ¬ slot_start < now)
    (hnoexact : ∀ e ∈ s.events,
      ¬(e.start_time = slot_start ∧ e.end_time = slot_end))
    (hfresh : ∀ e ∈ s.events, e.id ≠ s.nextId) :
    (createBooking now slot_start slot_end true false false true s).1 =
        .failure "Error al crear la reserva" ∧
      (createBooking now slot_start slot_end true false false true s).2.events
          = s.events ∧
      (createBooking now slot_start slot_end true false false true
        s).2.bookings = s.bookings := by
  have hfind : s.events.find? (fun e =>
      decide (e.start_time = slot_start) && decide (e.end_time = slot_end))
        = none := by
    rw [List.find?_eq_none]
    intro e he
    simp only [Bool.and_eq_true, decide_eq_true_eq]
    intro hcontra
    exact hnoexact e he hcontra
  have hfilter : (s.events ++
      [(⟨s.nextId, slot_start, slot_end, true, "booking"⟩ : EventRecord)]).filter
        (fun e => !decide (e.id = s.nextId)) = s.events := by
    rw [List.filter_append]
    have h1 : s.events.filter (fun e => !decide (e.id = s.nextId)) =
        s.events := by
      rw [List.filter_eq_self]
      intro e he
      simpa using hfresh e he
    have h2 : [(⟨s.nextId, slot_start, slot_end, true, "booking"⟩ :
        EventRecord)].filter (fun e => !decide (e.id = s.nextId)) = [] := by
      simp
    rw [h1, h2, List.append_nil]
  have hmain : createBooking now slot_start slot_end true false false true s =
      (.failure "Error al crear la reserva",
        ⟨s.events, s.bookings, s.nextId + 1⟩) := by
    simp [createBooking, hpast, hfind, hfilter]
  rw [hmain]
  exact ⟨rfl, rfl, rfl⟩

/-- Concrete instance of C8: a store with one unrelated event and booking;
the failed booking insert leaves both tables as they were. -/
theorem createBooking_rollback_witness :
    (¬ (100 : Int) < 50 ∧
      (∀ e ∈ ([⟨0, 0, 30, true, "booking"⟩] : List EventRecord),
        ¬(e.start_time = 100 ∧ e.end_time = 130)) ∧
      (∀ e ∈ ([⟨0, 0, 30, true, "booking"⟩] : List EventRecord), e.id ≠ 2)) ∧
    ((createBooking 50 100 130 true false false true
        ⟨[⟨0, 0, 30, true, "booking"⟩], [⟨1, 0⟩], 2⟩).1 =
          .failure "Error al crear la reserva" ∧
      (createBooking 50 100 130 true false false true
        ⟨[⟨0, 0, 30, true, "booking"⟩], [⟨1, 0⟩], 2⟩).2.events =
          [⟨0, 0, 30, true, "booking"⟩] ∧
      (createBooking 50 100 130 true false false true
        ⟨[⟨0, 0, 30, true, "booking"⟩], [⟨1, 0⟩], 2⟩).2.bookings = [⟨1, 0⟩]) :=
  ⟨⟨by decide, by decide, by decide⟩,
    createBooking_rollback 50 100 130
      ⟨[⟨0, 0, 30, true, "booking"⟩], [⟨1, 0⟩], 2⟩ (by decide) (by decide)
      (by decide)⟩

/-! ### Claim C9 -/

/-- C9: the already-booked rejection fires only on an exactly matching
`(start_time, end_time)` pair.  If no stored event matches exactly — even
though some stored event `b` strictly overlaps the candidate —
`createBooking` succeeds and commits a second, overlapping event alongside
`b`. -/
theorem createBooking_overlap_not_rejected (now slot_start slot_end : Int)
    (s : Store) (b : EventRecord)
    (hpast : ¬ slot_start < now)
    (hnoexact : ∀ e ∈ s.events,
      ¬(e.start_time = slot_start ∧ e.end_time = slot_end))
    (hmem : b ∈ s.events)
    (hover1 : b.start_time < slot_end) (hover2 : slot_start < b.end_time) :
    (createBooking now slot_start slot_end true false false false s).1 =
        .success (s.nextId + 1) ∧
      (createBooking now slot_start slot_end true false false false
          s).2.events =
        s.events ++ [⟨s.nextId, slot_start, slot_end, true, "booking"⟩] ∧
      b ∈ (createBooking now slot_start slot_end true false false false
          s).2.events ∧
      doTimesOverlap slot_start slot_end b.start_time b.end_time = true := by
  have hfind : s.events.find? (fun e =>
      decide (e.start_time = slot_start) && decide (e.end_time = slot_end))
        = none := by
    rw [List.find?_eq_none]
    intro e he
    simp only [Bool.and_eq_true, decide_eq_true_eq]
    intro hcontra
    exact hnoexact e he hcontra
  refine ⟨?_, ?_, ?_, ?_⟩
  · simp [createBooking, hpast, hfind]
  · simp [createBooking, hpast, hfind]
  · simp only [createBooking, hpast, hfind]
    simp [List.mem_append, hmem, hpast]
  · simp only [doTimesOverlap, isBefore, isAfter, Bool.or_eq_true,
      Bool.and_eq_true, decide_eq_true_eq]
    exact Or.inl ⟨hover2, hover1⟩

/-- Concrete instance of C9: event `[100, 160)` is stored; the candidate
`[130, 190)` strictly overlaps it but has different endpoints, and the
booking is accepted, committing both overlapping events. -/
theorem createBooking_overlap_not_rejected_witness :
    (¬ (130 : Int) < 50 ∧
      (∀ e ∈ ([⟨0, 100, 160, true, "booking"⟩] : List EventRecord),
        ¬(e.start_time = 130 ∧ e.end_time = 190)) ∧
      (⟨0, 100, 160, true, "booking"⟩ : EventRecord) ∈
        ([⟨0, 100, 160, true, "booking"⟩] : List EventRecord) ∧
      (100 : Int) < 190 ∧ (130 : Int) < 160) ∧
    ((createBooking 50 130 190 true false false false
        ⟨[⟨0, 100, 160, true, "booking"⟩], [], 1⟩).1 = .success 2 ∧
      (createBooking 50 130 190 true false false false
        ⟨[⟨0, 100, 160, true, "booking"⟩], [], 1⟩).2.events =
          [⟨0, 100, 160, true, "booking"⟩] ++ [⟨1, 130, 190, true, "booking"⟩] ∧
      (⟨0, 100, 160, true, "booking"⟩ : EventRecord) ∈
        (createBooking 50 130 190 true false false false
          ⟨[⟨0, 100, 160, true, "booking"⟩], [], 1⟩).2.events ∧
      doTimesOverlap 130 190 100 160 = true) :=
  ⟨⟨by decide, by decide, by decide, by decide, by decide⟩,
    createBooking_overlap_not_rejected 50 130 190
      ⟨[⟨0, 100, 160, true, "booking"⟩], [], 1⟩ ⟨0, 100, 160, true, "booking"⟩
      (by decide) (by decide) (by decide) (by decide) (by decide)⟩

/-! ### Schedule resolution: `getSchedule` from the settings server action -/

/-- A `DaySchedule` row as read and written by the schedule actions. -/
structure DaySchedule where
  day_of_week : Int
  start_time : WallTime
  end_time : WallTime
  is_active : Bool
deriving DecidableEq, Repr

/-- `DEFAULT_SCHEDULE` from the settings server action: every day
09:00–18:00, active Monday (1) through Friday (5) only. -/
def DEFAULT_SCHEDULE : List DaySchedule :=
  [⟨0, ⟨9, 0⟩, ⟨18, 0⟩, false⟩,
   ⟨1, ⟨9, 0⟩, ⟨18, 0⟩, true⟩,
   ⟨2, ⟨9, 0⟩, ⟨18, 0⟩, true⟩,
   ⟨3, ⟨9, 0⟩, ⟨18, 0⟩, true⟩,
   ⟨4, ⟨9, 0⟩, ⟨18, 0⟩, true⟩,
   ⟨5, ⟨9, 0⟩, ⟨18, 0⟩, true⟩,
   ⟨6, ⟨9, 0⟩, ⟨18, 0⟩, false⟩]

/-- `getSchedule` from the settings server action, as a pure function of
the owner's `availability_rules` read (all of the owner's rows, active or
not).  A failed or empty read returns `DEFAULT_SCHEDULE` wholesale;
otherwise every default day is replaced by the first persisted row with the
same `day_of_week`, days without a persisted row keeping their default. -/
def getSchedule (persisted : Except Unit (List DaySchedule)) :
    List DaySchedule :=
  match persisted with
  | .error _ => DEFAULT_SCHEDULE
  | .ok data =>
    if data.length = 0 then DEFAULT_SCHEDULE
    else
      DEFAULT_SCHEDULE.map fun defaultDay =>
        match data.find? (fun r =>
            decide (r.day_of_week = defaultDay.day_of_week)) with
        | some existingRule =>
          ⟨existingRule.day_of_week, existingRule.start_time,
            existingRule.end_time, existingRule.is_active⟩
        | none => defaultDay

/-! ### Claim C4 -/

/-- C4 fails as stated for the availability engine: persisted active rules
covering only Monday (weekday 1) give a Tuesday (day index 2, weekday 2)
zero slots — the claimed per-weekday default fill (Tuesday 09:00–18:00
active) would give 18 — although with zero persisted rules the same Tuesday
does get its 18 default slots. -/
theorem getAvailableSlots_no_default_fill_counterexample :
    getAvailableSlots 2 1 30 0 (.ok [])
        (.ok [⟨1, ⟨9, 0⟩, ⟨18, 0⟩, true⟩]) = [] ∧
      (getAvailableSlots 2 1 30 0 (.ok [])
        (.ok ([] : List AvailabilityRule))).length = 18 := by decide

/-- C4 amended: the per-weekday default merge holds for the admin schedule
read `getSchedule` (zero persisted rules — or a failed read — yield the full
default schedule; otherwise each weekday uses its persisted row when one
exists and its default row when not), and the engine `getAvailableSlots`
substitutes the default rules only when the active-rule read is empty;
when persisted active rules exist, a day whose weekday has no matching rule
yields zero slots instead of being filled from defaults. -/
theorem scheduleResolution_amended
    (data : List DaySchedule) (hne : data ≠ [])
    (i : Nat) (hi : i < 7)
    (rs : List AvailabilityRule) (hrs : rs ≠ [])
    (sd : Int) (dur buf : Int) (evs : List (Int × Int))
    (hmiss : ∀ r ∈ rs, r.day_of_week ≠ getDayOfWeek sd) :
    getSchedule (.ok ([] : List DaySchedule)) = DEFAULT_SCHEDULE ∧
    getSchedule (.error ()) = DEFAULT_SCHEDULE ∧
    (getSchedule (.ok data)).length = 7 ∧
    (∀ h : i < (getSchedule (.ok data)).length,
      (getSchedule (.ok data)).get ⟨i, h⟩ =
        match data.find? (fun r => decide (r.day_of_week = Int.ofNat i)) with
        | some r => r
        | none => DEFAULT_SCHEDULE.get ⟨i, hi⟩) ∧
    (∀ (sd2 : Int) (days : Nat) (dur2 buf2 : Int) (evs2 : List (Int × Int)),
      getAvailableSlots sd2 days dur2 buf2 (.ok evs2)
          (.ok ([] : List AvailabilityRule)) =
        getAvailableSlots sd2 days dur2 buf2 (.ok evs2)
          (.ok DEFAULT_AVAILABILITY_RULES)) ∧
    getAvailableSlots sd 1 dur buf (.ok evs) (.ok rs) = [] := by
  have hlen0 : ¬ data.length = 0 := fun h => hne (List.length_eq_zero.mp h)
  refine ⟨rfl, rfl, ?_, ?_, fun _ _ _ _ _ => rfl, ?_⟩
  · simp only [getSchedule, if_neg hlen0, List.length_map]
    rfl
  · intro h
    have hdow : ∀ hx : i < DEFAULT_SCHEDULE.length,
        (DEFAULT_SCHEDULE.get ⟨i, hx⟩).day_of_week = Int.ofNat i := by
      intro hx
      interval_cases i <;> rfl
    have hget : (getSchedule (.ok data)).get ⟨i, h⟩ =
        (fun defaultDay =>
          match data.find? (fun r =>
              decide (r.day_of_week = defaultDay.day_of_week)) with
          | some existingRule =>
            (⟨existingRule.day_of_week, existingRule.start_time,
              existingRule.end_time, existingRule.is_active⟩ : DaySchedule)
          | none => defaultDay)
          (DEFAULT_SCHEDULE.get ⟨i, by simpa using hi⟩) := by
      have hsch : getSchedule (.ok data) =
          DEFAULT_SCHEDULE.map fun defaultDay =>
            match data.find? (fun r =>
                decide (r.day_of_week = defaultDay.day_of_week)) with
            | some existingRule =>
              (⟨existingRule.day_of_week, existingRule.start_time,
                existingRule.end_time, existingRule.is_active⟩ : DaySchedule)
            | none => defaultDay := by
        simp only [getSchedule, if_neg hlen0]
      exact (List.get_of_eq hsch ⟨i, h⟩).trans (List.get_map _)
    rw [hget]
    simp only []
    rw [hdow (by simpa using hi)]
  · have hlen : rs.length > 0 := List.length_pos.mpr hrs
    simp only [getAvailableSlots, if_pos hlen]
    rw [List.flatMap_eq_nil_iff]
    intro date hdate
    have hd : date = sd := by
      simp only [getDateRange, List.mem_map, List.mem_range] at hdate
      obtain ⟨j, hj, hje⟩ := hdate
      interval_cases j
      simpa using hje.symm
    subst hd
    have hfind : rs.find?
        (fun r => decide (r.day_of_week = getDayOfWeek date)) = none := by
      rw [List.find?_eq_none]
      intro r hr
      simpa using hmiss r hr
    simp [hfind]

/-- Concrete instance of the amended C4: persisted schedule row only for
Monday 09:00–17:00; weekday 2 of the merged schedule stays the default row,
and a Tuesday request against a Monday-only active rule set yields no
slots. -/
theorem scheduleResolution_amended_witness :
    (([⟨1, ⟨9, 0⟩, ⟨17, 0⟩, true⟩] : List DaySchedule) ≠ [] ∧ 2 < 7 ∧
      ([⟨1, ⟨9, 0⟩, ⟨18, 0⟩, true⟩] : List AvailabilityRule) ≠ [] ∧
      (∀ r ∈ ([⟨1, ⟨9, 0⟩, ⟨18, 0⟩, true⟩] : List AvailabilityRule),
        r.day_of_week ≠ getDayOfWeek 2)) ∧
    (getSchedule (.ok ([] : List DaySchedule)) = DEFAULT_SCHEDULE ∧
      getSchedule (.error ()) = DEFAULT_SCHEDULE ∧
      (getSchedule (.ok [⟨1, ⟨9, 0⟩, ⟨17, 0⟩, true⟩])).length = 7 ∧
      (getSchedule (.ok [⟨1, ⟨9, 0⟩, ⟨17, 0⟩, true⟩])).get ⟨2, by decide⟩ =
        (match ([⟨1, ⟨9, 0⟩, ⟨17, 0⟩, true⟩] : List DaySchedule).find?
            (fun r => decide (r.day_of_week = Int.ofNat 2)) with
        | some r => r
        | none => DEFAULT_SCHEDULE.get ⟨2, by decide⟩) ∧
      getAvailableSlots 5 3 30 0 (.ok [(100, 200)])
          (.ok ([] : List AvailabilityRule)) =
        getAvailableSlots 5 3 30 0 (.ok [(100, 200)])
          (.ok DEFAULT_AVAILABILITY_RULES) ∧
      getAvailableSlots 2 1 30 0 (.ok [])
        (.ok [⟨1, ⟨9, 0⟩, ⟨18, 0⟩, true⟩]) = []) :=
  ⟨⟨by decide, by decide, by decide, by decide⟩, by
    obtain ⟨a, b, c, d, e, f⟩ := scheduleResolution_amended
      [⟨1, ⟨9, 0⟩, ⟨17, 0⟩, true⟩] (by decide) 2 (by decide)
      [⟨1, ⟨9, 0⟩, ⟨18, 0⟩, true⟩] (by decide) 2 30 0 [] (by decide)
    exact ⟨a, b, c, d (by decide), e 5 3 30 0 [(100, 200)], f⟩⟩

/-! ### Claim C10 -/

/-- `hasMinimumNotice` from `dateHelpers.ts`: `date` is after
`new Date() + minHours * 60` minutes; the clock read `new Date()` is the
explicit argument `now`. -/
def hasMinimumNotice (date : Int) (minHours : Int) (now : Int) : Bool :=
  isAfter date (addMinutes now (minHours * 60))

/-- `getAvailableSlots` with the two persisted booking-window settings in
scope: the source function's parameter record (`startDate`, `days`,
`slotDuration`, `bufferTime`) contains neither `min_notice_hours` nor
`advance_booking_days`, and its body never reads them, so making them
explicit arguments leaves them unused. -/
def getAvailableSlotsWithSettings
    (min_notice_hours advance_booking_days : Int) (startDate : Int)
    (days : Nat) (slotDuration bufferTime : Int)
    (eventsRes : Except Unit (List (Int × Int)))
    (rulesRes : Except Unit (List AvailabilityRule)) : List TimeSlot :=
  getAvailableSlots startDate days slotDuration bufferTime eventsRes rulesRes

/-- C10: the engine's output is independent of the `minNoticeHours` and
`advanceBookingDays` settings, and in particular a slot starting only one
minute after the acceptance-time clock (`now = 0`) — far less than the
default 12-hour minimum notice — is returned marked available:
`hasMinimumNotice` rejects that start, but the engine never consults it. -/
theorem getAvailableSlots_ignores_notice_settings :
    (∀ (m1 a1 m2 a2 startDate : Int) (days : Nat) (dur buf : Int)
      (evs : Except Unit (List (Int × Int)))
      (rls : Except Unit (List AvailabilityRule)),
      getAvailableSlotsWithSettings m1 a1 startDate days dur buf evs rls =
        getAvailableSlotsWithSettings m2 a2 startDate days dur buf evs rls) ∧
    getAvailableSlots 0 1 30 0 (.ok [])
        (.ok [⟨0, ⟨0, 1⟩, ⟨0, 31⟩, true⟩]) = [⟨1, 31, true⟩] ∧
    hasMinimumNotice 1 12 0 = false :=
  ⟨fun _ _ _ _ _ _ _ _ _ _ => rfl, by decide, by decide⟩

end EnzoCalendar
